import Mathlib

set_option autoImplicit false

namespace MultiAgentUI

/-!
Shallow embedding of `apps/streamlit_ui/multi_agent_communication_ui.py`
(the CAMEL multi-agent Streamlit front end).  External collaborators
(`multi_agent`, `insight_agent`, `deductive_reasoner_agent`, the
role-playing step function and the retrieval index) are parameters of the
embedded functions; the logic owned by this file — the environment-record
dictionary, the bounded dialogue loop of `main`, the `max(..., key=...)`
role selection, `get_insights_from_environment`, and `send_message_to_ui` —
is translated operation for operation from the source.
-/

/-! ### Python string primitives

`strContainsSub h n` models Python's `n in h` on strings, and `pyReplace`
models `str.replace` (replace every non-overlapping occurrence, scanning
left to right). -/

/-- Does the list start with the given pattern? -/
def listStartsWith : List Char → List Char → Bool
  | _, [] => true
  | [], _ :: _ => false
  | a :: as, b :: bs => a == b && listStartsWith as bs

/-- Does the list contain the pattern as a contiguous sublist?  This is
Python's `pat in s` for strings, expressed on the character lists. -/
def listContainsSub : List Char → List Char → Bool
  | [], needle => needle.isEmpty
  | c :: t, needle => listStartsWith (c :: t) needle || listContainsSub t needle

/-- Python's `needle in haystack` on strings. -/
def strContainsSub (haystack needle : String) : Bool :=
  listContainsSub haystack.data needle.data

/-- Fuel-indexed worker for `pyReplace`; the fuel is the length of the
string being scanned, which bounds the number of scanning steps. -/
def replaceAllAux (pat rep : List Char) : Nat → List Char → List Char
  | 0, s => s
  | fuel + 1, s =>
    match s with
    | [] => []
    | c :: rest =>
      if !pat.isEmpty && listStartsWith (c :: rest) pat then
        rep ++ replaceAllAux pat rep fuel ((c :: rest).drop pat.length)
      else
        c :: replaceAllAux pat rep fuel rest

/-- Python's `s.replace(pat, rep)`: every non-overlapping occurrence of
`pat` in `s` is replaced by `rep`, scanning left to right. -/
def pyReplace (s pat rep : String) : String :=
  String.mk (replaceAllAux pat.data rep.data s.data.length s.data)

/-! ### Insights and the environment record

Lines 86-94 and 289-294 of the source: `environment_record` is a Python
dict whose keys are `tuple(insight["entity_recognition"])` — the tag
sequence exactly as produced, order kept, duplicates kept — and whose
values are the insight dicts.  A key tuple is embedded as `List String`,
and the dict as an association list in insertion order with Python dict
assignment semantics (`dictInsert`: overwrite in place if the key is
present, append otherwise). -/

/-- An insight record, reduced to the fields the orchestration logic
reads: the `entity_recognition` tag sequence (possibly null) and the rest
of the record collapsed into `content`. -/
structure Insight where
  entity_recognition : Option (List String)
  content : String
deriving DecidableEq

/-- The environment record: a Python dict from tag tuples to insights,
kept in insertion order. -/
abbrev EnvironmentRecord := List (List String × Insight)

/-- The key list of the dict, in insertion order (`dict.keys()`). -/
def dictKeys (env : EnvironmentRecord) : List (List String) :=
  env.map Prod.fst

/-- Dict lookup (`env[k]`), `none` when Python would raise `KeyError`.
The key must match a stored key as a whole list — element for element, in
order. -/
def dictGet? : EnvironmentRecord → List String → Option Insight
  | [], _ => none
  | p :: t, k => if p.1 = k then some p.2 else dictGet? t k

/-- Python dict assignment `env[k] = v`: overwrite the entry in place when
the key is already present, append a new entry otherwise. -/
def dictInsert : EnvironmentRecord → List String → Insight → EnvironmentRecord
  | [], k, v => [(k, v)]
  | p :: t, k, v => if p.1 = k then (k, v) :: t else p :: dictInsert t k v

/-- One iteration of the update loops at lines 89-93 and 290-294: skip the
insight when `entity_recognition` is null, otherwise store it under the
tuple of its tag sequence. -/
def insertInsight (env : EnvironmentRecord) (insight : Insight) : EnvironmentRecord :=
  match insight.entity_recognition with
  | none => env
  | some tags => dictInsert env tags insight

/-- A whole update loop over `insights.values()`. -/
def insertInsights (env : EnvironmentRecord) (insights : List Insight) : EnvironmentRecord :=
  insights.foldl insertInsight env

/-! ### Retrieval (`get_insights_from_environment`, lines 300-345) -/

/-- Line 317-319: `target_labels = list(set(conditions["labels"]) |
set(subtask_labels))`.  Python's set-iteration order is unspecified; the
result is only handed to the external retrieval-index collaborator, so the
embedding picks the deterministic first-occurrence deduplication of the
concatenation. -/
def targetLabels (conditionLabels subtaskLabels : List String) : List String :=
  (conditionLabels ++ subtaskLabels).dedup

/-- Lines 328-330: the list comprehension
`[environment_record[tuple(label_set)] for label_set in labels_retrieved_sets]`.
Each returned label sequence is looked up directly as a key; a missing key
raises `KeyError`, embedded as `none`. -/
def lookupAll (env : EnvironmentRecord) : List (List String) → Option (List Insight)
  | [] => some []
  | label_set :: rest =>
    match dictGet? env label_set with
    | none => none
    | some insight =>
      match lookupAll env rest with
      | none => none
      | some insights => some (insight :: insights)

/-- The environment-reading core of `get_insights_from_environment`: build
`target_labels`, pass the stored key list and the targets to the external
retrieval-index collaborator, and look each returned label set up in the
record.  (The surrounding insight-agent call and JSON formatting only
consume the result.) -/
def get_insights_from_environment (env : EnvironmentRecord)
    (conditionLabels subtaskLabels : List String)
    (retrievalIndex : List (List String) → List String → List (List String)) :
    Option (List Insight) :=
  let target_labels := targetLabels conditionLabels subtaskLabels
  let labels_sets := dictKeys env
  lookupAll env (retrievalIndex labels_sets target_labels)

/-! ### Operations applied to the environment record during a run

The source touches `environment_record` in exactly two ways: the insert
loops (seed at lines 89-93, per-subtask update at lines 290-294) and the
read-only `get_insights_from_environment`.  A run's history of touches is
a trace of these operations. -/

/-- One touch of the environment record. -/
inductive EnvOp where
  | insertOp (insights : List Insight)
  | retrieveOp (conditionLabels subtaskLabels : List String)
      (retrievalIndex : List (List String) → List String → List (List String))

/-- Effect of one touch on the store.  `get_insights_from_environment`
only reads `environment_record` (`keys()` and item lookups), so the store
after a retrieval is the store before it. -/
def applyEnvOp (env : EnvironmentRecord) : EnvOp → EnvironmentRecord
  | .insertOp insights => insertInsights env insights
  | .retrieveOp _ _ _ => env

/-- The store after a trace of touches. -/
def runEnvOps (env : EnvironmentRecord) (ops : List EnvOp) : EnvironmentRecord :=
  ops.foldl applyEnvOp env

/-! ### Role selection (lines 120-127)

`max(role_compatibility_scores_dict, key=lambda role: ...)` over a dict in
insertion order: CPython's `max` keeps the current best and replaces it
only on a strictly greater key value, so the first role attaining the
maximum wins ties.  The score dict is embedded as an association list in
iteration order. -/

/-- Compatibility scores of one role. -/
structure RoleScores where
  score_assistant : Rat
  score_user : Rat
deriving DecidableEq

/-- Worker of Python's `max(iterable, key=f)`: carry the best element and
its key value, replace only on a strictly greater value. -/
def pyMaxKeyGo (f : RoleScores → Rat) : String → Rat → List (String × RoleScores) → String
  | best, _, [] => best
  | best, bestVal, p :: t =>
    if bestVal < f p.2 then pyMaxKeyGo f p.1 (f p.2) t else pyMaxKeyGo f best bestVal t

/-- Python's `max(scores_dict, key=f)`; `none` models the `ValueError` on
an empty iterable. -/
def pyMaxKey (f : RoleScores → Rat) : List (String × RoleScores) → Option String
  | [] => none
  | p :: t => some (pyMaxKeyGo f p.1 (f p.2) t)

/-- Line 120-123: the assistant role, argmax of `score_assistant`. -/
def ai_assistant_role (scores : List (String × RoleScores)) : Option String :=
  pyMaxKey (fun s => s.score_assistant) scores

/-- Line 124-127: the user role, argmax of `score_user`. -/
def ai_user_role (scores : List (String × RoleScores)) : Option String :=
  pyMaxKey (fun s => s.score_user) scores

/-- Specification-side selection, written from the spec's words: the first
role in iteration order whose score is at least every role's score. -/
def specFirstArgmax (f : RoleScores → Rat) (scores : List (String × RoleScores)) :
    Option String :=
  (scores.find? (fun p => scores.all (fun q => f q.2 ≤ f p.2))).map Prod.fst

/-- Running maximum of the key values of a list, seeded with the value of
the current best; mirrors the value carried by `pyMaxKeyGo`. -/
def foldMaxVal (f : RoleScores → Rat) : Rat → List (String × RoleScores) → Rat
  | bv, [] => bv
  | bv, q :: t => foldMaxVal f (max bv (f q.2)) t

/-! ### The dialogue loop (lines 211-277)

`chat_turn_limit, n = 50, 0;  while n < chat_turn_limit: n += 1; try: ...`.
The loop body is translated step for step; the external
`role_play_session.step` is a parameter indexed by the invocation number
`n` (each iteration makes exactly one call) and the current input message,
with `none` standing for a raised exception.  A transcript entry stands
for the per-turn appends of a successful, non-terminated turn (the
`assistant_msg_record` block and the two `send_message_to_ui` calls).
Recursion is on the remaining fuel `chat_turn_limit - n`. -/

/-- One participant response of `role_play_session.step`: message content,
termination flag, and `info["termination_reasons"]`. -/
structure ChatResponse where
  content : String
  terminated : Bool
  termination_reasons : String
deriving DecidableEq

/-- The step function: invocation number and input message to a pair of
(assistant, user) responses, `none` when the call raises. -/
abbrev StepFn := Nat → String → Option (ChatResponse × ChatResponse)

/-- One completed turn of the transcript. -/
structure TranscriptEntry where
  turn : Nat
  assistant_content : String
  user_content : String
deriving DecidableEq

/-- How the dialogue loop ended. -/
inductive LoopOutcome where
  | completed
  | terminatedAssistant (reason : String)
  | terminatedUser (reason : String)
  | turnLimitReached
deriving DecidableEq

/-- Result of the dialogue loop: the exit cause, the completed-turn
transcript, and the final value of the counter `n`. -/
structure DialogueResult where
  outcome : LoopOutcome
  transcript : List TranscriptEntry
  turns : Nat
deriving DecidableEq

/-- The completion sentinel checked at lines 273-277. -/
def CAMEL_TASK_DONE : String := "CAMEL_TASK_DONE"

/-- The hard turn limit of line 212. -/
def chat_turn_limit : Nat := 50

/-- The `while n < chat_turn_limit` loop of lines 214-277, with
`fuel = chat_turn_limit - n`.  Each iteration increments `n` first (line
215), then calls the step function; an exception prints a warning and
`continue`s with `n` already incremented and the input message and
transcript unchanged.  On success the assistant's termination flag is
checked before the user's (lines 225-236); otherwise the next input
message becomes the assistant's message, the turn is appended to the
transcript, and the sentinel is checked in the user's then the assistant's
content (lines 273-277). -/
def dialogueGo (step : StepFn) : Nat → Nat → String → List TranscriptEntry → DialogueResult
  | 0, n, _, transcript =>
    { outcome := .turnLimitReached, transcript := transcript, turns := n }
  | fuel + 1, n, input_msg, transcript =>
    match step (n + 1) input_msg with
    | none => dialogueGo step fuel (n + 1) input_msg transcript
    | some (assistant_response, user_response) =>
      if assistant_response.terminated then
        { outcome := .terminatedAssistant assistant_response.termination_reasons,
          transcript := transcript, turns := n + 1 }
      else if user_response.terminated then
        { outcome := .terminatedUser user_response.termination_reasons,
          transcript := transcript, turns := n + 1 }
      else
        let transcript' := transcript ++
          [{ turn := n + 1, assistant_content := assistant_response.content,
             user_content := user_response.content }]
        if strContainsSub user_response.content CAMEL_TASK_DONE
            || strContainsSub assistant_response.content CAMEL_TASK_DONE then
          { outcome := .completed, transcript := transcript', turns := n + 1 }
        else
          dialogueGo step fuel (n + 1) assistant_response.content transcript'

/-- The whole dialogue of one subtask: counter `n` starts at 0, limit 50,
input message from `init_chat()`. -/
def runDialogue (step : StepFn) (init_msg : String) : DialogueResult :=
  dialogueGo step chat_turn_limit 0 init_msg []

/-! ### `send_message_to_ui` (lines 404-417) -/

/-- One observable side effect of `send_message_to_ui`. -/
inductive UIEffect where
  | chatMessage (role : String) (text : String)
  | fileAppend (path : String) (text : String)
deriving DecidableEq

/-- The log file appended by the UI helpers. -/
def output_md_path : String := "downloads/CAMEL_multi_agent_output.md"

/-- Lines 404-417: validate the role label first and raise `ValueError`
(the `Except.error`, carrying no effects) before any side effect;
otherwise emit the chat message and the three file appends, with
`"Next request."` stripped from the message. -/
def send_message_to_ui (role role_name message : String) : Except String (List UIEffect) :=
  if ¬ (role = "user" ∨ role = "assistant") then
    Except.error "The role should be one of \x27user\x27 or \x27assistant\x27."
  else
    let cleaned := pyReplace message "Next request." ""
    Except.ok
      [ UIEffect.chatMessage role ("AI " ++ role ++ ": " ++ role_name ++ "\n\n" ++ cleaned),
        UIEffect.fileAppend output_md_path ("AI " ++ role ++ ": " ++ role_name ++ "\n\n"),
        UIEffect.fileAppend output_md_path (cleaned ++ "\n"),
        UIEffect.fileAppend output_md_path "\n" ]

/-! ### Concrete inputs used by the witness theorems -/

/-- A step function that always raises. -/
def alwaysFailStep : StepFn := fun _ _ => none

/-- A non-terminated assistant response without the sentinel. -/
def plainA : ChatResponse :=
  { content := "step forward", terminated := false, termination_reasons := "" }

/-- A non-terminated user response without the sentinel. -/
def plainU : ChatResponse :=
  { content := "ok continue", terminated := false, termination_reasons := "" }

/-- A step function that always succeeds and never terminates or
completes. -/
def neverEndingStep : StepFn := fun _ _ => some (plainA, plainU)

/-- A user response whose content contains the completion sentinel. -/
def doneU : ChatResponse :=
  { content := "great CAMEL_TASK_DONE", terminated := false, termination_reasons := "" }

/-- A step function that succeeds plainly on turns 1 and 2 and returns the
sentinel in the user response on turn 3. -/
def doneOnTurn3Step : StepFn := fun k _ =>
  if k = 3 then some (plainA, doneU) else some (plainA, plainU)

/-- A terminated assistant response. -/
def termA : ChatResponse :=
  { content := "halt", terminated := true, termination_reasons := "assistant gave up" }

/-- A terminated user response. -/
def termU : ChatResponse :=
  { content := "halt too", terminated := true, termination_reasons := "user gave up" }

/-- A step function on which both participants signal termination at
once. -/
def bothTerminateStep : StepFn := fun _ _ => some (termA, termU)

/-- An insight tagged `["alpha", "beta"]`. -/
def insightAB : Insight :=
  { entity_recognition := some ["alpha", "beta"], content := "first" }

/-- An insight tagged `["beta", "alpha"]` — the same tags as `insightAB`
as an order-independent set. -/
def insightBA : Insight :=
  { entity_recognition := some ["beta", "alpha"], content := "second" }

/-- An insight tagged `["t"]`. -/
def insightT1 : Insight := { entity_recognition := some ["t"], content := "one" }

/-- Another insight tagged `["t"]`. -/
def insightT2 : Insight := { entity_recognition := some ["t"], content := "two" }

/-- An insight with a null tag sequence. -/
def nullTagInsight : Insight := { entity_recognition := none, content := "dropped" }

/-- A one-entry environment record. -/
def seedEnv : EnvironmentRecord := [(["seed"], insightT1)]

/-- A short trace of touches: one insert batch, one retrieval. -/
def demoOps : List EnvOp :=
  [EnvOp.insertOp [insightAB, nullTagInsight],
   EnvOp.retrieveOp ["seed"] [] (fun _ _ => [])]

/-- A score dict with an assistant-score tie (first role must win) on
which both selections pick the same role. -/
def demoScores : List (String × RoleScores) :=
  [("alice", { score_assistant := 0.9, score_user := 0.8 }),
   ("bob", { score_assistant := 0.9, score_user := 0.2 })]

/-- A retrieval index returning exactly the stored key. -/
def ridxGood : List (List String) → List String → List (List String) := fun _ _ => [["seed"]]

/-- A retrieval index returning a label set that is not a stored key. -/
def ridxBad : List (List String) → List String → List (List String) := fun _ _ => [["seed", "x"]]

/-! ## Dictionary lemmas -/

/-- Keys of the empty dict. -/
theorem dictKeys_nil : dictKeys [] = [] := rfl

/-- Keys of a non-empty dict. -/
theorem dictKeys_cons (p : List String × Insight) (t : EnvironmentRecord) :
    dictKeys (p :: t) = p.1 :: dictKeys t := rfl

/-- A key is stored exactly when looking it up succeeds. -/
theorem mem_dictKeys_iff (env : EnvironmentRecord) (k : List String) :
    k ∈ dictKeys env ↔ (dictGet? env k).isSome := by
  induction env with
  | nil => simp [dictKeys_nil, dictGet?]
  | cons p t ih =>
    by_cases h : p.1 = k
    · simp [dictKeys_cons, dictGet?, h]
    · have h' : ¬ (k = p.1) := fun hh => h hh.symm
      simp only [dictKeys_cons, List.mem_cons, dictGet?, if_neg h, h', false_or]
      exact ih

/-- Looking up the key just written returns the written value. -/
theorem dictGet?_dictInsert_self (env : EnvironmentRecord) (k : List String) (v : Insight) :
    dictGet? (dictInsert env k v) k = some v := by
  induction env with
  | nil => simp [dictInsert, dictGet?]
  | cons p t ih =>
    by_cases h : p.1 = k
    · simp [dictInsert, h, dictGet?]
    · simp only [dictInsert, if_neg h, dictGet?]
      exact ih

/-- Writing one key leaves lookups of every other key unchanged. -/
theorem dictGet?_dictInsert_ne (env : EnvironmentRecord) (k : List String) (v : Insight)
    (k' : List String) (h : k' ≠ k) :
    dictGet? (dictInsert env k v) k' = dictGet? env k' := by
  have h'' : ¬ (k = k') := fun hh => h hh.symm
  induction env with
  | nil => simp [dictInsert, dictGet?, h'']
  | cons p t ih =>
    by_cases hp : p.1 = k
    · have hpk' : ¬ (p.1 = k') := fun hh => h'' (hp.symm.trans hh)
      simp only [dictInsert, if_pos hp, dictGet?, if_neg h'', if_neg hpk']
    · by_cases hpk : p.1 = k'
      · simp only [dictInsert, if_neg hp, dictGet?, if_pos hpk]
      · simp only [dictInsert, if_neg hp, dictGet?, if_neg hpk]
        exact ih

/-- A successful lookup stays successful after any dict write. -/
theorem isSome_dictGet?_dictInsert (env : EnvironmentRecord) (k : List String) (v : Insight)
    (k' : List String) (h : (dictGet? env k').isSome) :
    (dictGet? (dictInsert env k v) k').isSome := by
  by_cases hk : k' = k
  · subst hk; simp [dictGet?_dictInsert_self]
  · rwa [dictGet?_dictInsert_ne env k v k' hk]

/-- A stored key stays stored after any dict write. -/
theorem mem_dictKeys_dictInsert (env : EnvironmentRecord) (k : List String) (v : Insight)
    (k' : List String) (h : k' ∈ dictKeys env) : k' ∈ dictKeys (dictInsert env k v) := by
  rw [mem_dictKeys_iff] at h ⊢
  exact isSome_dictGet?_dictInsert env k v k' h

/-- The keys after a dict write are the old keys plus possibly the new
key. -/
theorem mem_dictKeys_dictInsert_iff (env : EnvironmentRecord) (k : List String) (v : Insight)
    (k' : List String) :
    k' ∈ dictKeys (dictInsert env k v) ↔ k' ∈ dictKeys env ∨ k' = k := by
  induction env with
  | nil => simp [dictInsert, dictKeys_cons, dictKeys_nil]
  | cons p t ih =>
    by_cases hp : p.1 = k
    · have hins : dictInsert (p :: t) k v = (k, v) :: t := by simp [dictInsert, hp]
      rw [hins]
      simp only [dictKeys_cons, List.mem_cons, hp]
      tauto
    · have hins : dictInsert (p :: t) k v = p :: dictInsert t k v := by
        simp [dictInsert, hp]
      rw [hins]
      simp only [dictKeys_cons, List.mem_cons, ih]
      tauto

/-- A dict write keeps the keys duplicate-free. -/
theorem nodup_dictKeys_dictInsert (env : EnvironmentRecord) (k : List String) (v : Insight)
    (h : (dictKeys env).Nodup) : (dictKeys (dictInsert env k v)).Nodup := by
  induction env with
  | nil => simp [dictInsert, dictKeys_cons, dictKeys_nil]
  | cons p t ih =>
    simp only [dictKeys_cons, List.nodup_cons] at h
    by_cases hp : p.1 = k
    · simp only [dictInsert, if_pos hp, dictKeys_cons, List.nodup_cons]
      exact ⟨hp ▸ h.1, h.2⟩
    · simp only [dictInsert, if_neg hp, dictKeys_cons, List.nodup_cons]
      refine ⟨?_, ih h.2⟩
      rw [mem_dictKeys_dictInsert_iff]
      rintro (hmem | hmem)
      · exact h.1 hmem
      · exact hp hmem

/-- A dict with no entry under a key filters to nothing under that key. -/
theorem filter_eq_nil_of_not_mem (env : EnvironmentRecord) (k : List String)
    (h : k ∉ dictKeys env) : env.filter (fun p => p.1 = k) = [] := by
  induction env with
  | nil => simp
  | cons p t ih =>
    simp only [dictKeys_cons, List.mem_cons, not_or] at h
    have hp : ¬ (p.1 = k) := fun hh => h.1 hh.symm
    simp only [List.filter_cons]
    rw [if_neg (by simpa using hp)]
    exact ih h.2

/-- With duplicate-free keys, writing a key leaves exactly one entry under
it, holding the written value. -/
theorem filter_dictInsert_self (env : EnvironmentRecord) (k : List String) (v : Insight)
    (h : (dictKeys env).Nodup) :
    (dictInsert env k v).filter (fun p => p.1 = k) = [(k, v)] := by
  induction env with
  | nil => simp [dictInsert]
  | cons p t ih =>
    simp only [dictKeys_cons, List.nodup_cons] at h
    by_cases hp : p.1 = k
    · simp only [dictInsert, if_pos hp, List.filter_cons]
      rw [if_pos (by simp)]
      rw [filter_eq_nil_of_not_mem t k (hp ▸ h.1)]
    · simp only [dictInsert, if_neg hp, List.filter_cons]
      rw [if_neg (by simpa using hp)]
      exact ih h.2

/-! ## Insertion and trace lemmas -/

/-- One insight insertion keeps every successful lookup successful. -/
theorem isSome_dictGet?_insertInsight (env : EnvironmentRecord) (i : Insight)
    (k : List String) (h : (dictGet? env k).isSome) :
    (dictGet? (insertInsight env i) k).isSome := by
  cases her : i.entity_recognition with
  | none => simpa [insertInsight, her] using h
  | some tags =>
    simp only [insertInsight, her]
    exact isSome_dictGet?_dictInsert env tags i k h

/-- A batch of insight insertions keeps every successful lookup
successful. -/
theorem isSome_dictGet?_insertInsights (insights : List Insight) :
    ∀ (env : EnvironmentRecord) (k : List String), (dictGet? env k).isSome →
      (dictGet? (insertInsights env insights) k).isSome := by
  induction insights with
  | nil => intro env k h; simpa [insertInsights] using h
  | cons i rest ih =>
    intro env k h
    have h1 := isSome_dictGet?_insertInsight env i k h
    simpa [insertInsights] using ih (insertInsight env i) k h1

/-- Every touch of the environment record keeps successful lookups
successful. -/
theorem isSome_dictGet?_applyEnvOp (env : EnvironmentRecord) (op : EnvOp)
    (k : List String) (h : (dictGet? env k).isSome) :
    (dictGet? (applyEnvOp env op) k).isSome := by
  cases op with
  | insertOp insights => exact isSome_dictGet?_insertInsights insights env k h
  | retrieveOp cl sl ridx => simpa [applyEnvOp] using h

/-- A whole trace of touches keeps successful lookups successful. -/
theorem isSome_dictGet?_runEnvOps (ops : List EnvOp) :
    ∀ (env : EnvironmentRecord) (k : List String), (dictGet? env k).isSome →
      (dictGet? (runEnvOps env ops) k).isSome := by
  induction ops with
  | nil => intro env k h; simpa [runEnvOps] using h
  | cons op rest ih =>
    intro env k h
    have h1 := isSome_dictGet?_applyEnvOp env op k h
    simpa [runEnvOps] using ih (applyEnvOp env op) k h1

/-! ## Retrieval-lookup lemmas -/

/-- When every requested label set is a stored key, the lookup
comprehension succeeds. -/
theorem lookupAll_isSome (env : EnvironmentRecord) (sets : List (List String))
    (h : ∀ ls ∈ sets, ls ∈ dictKeys env) : (lookupAll env sets).isSome := by
  induction sets with
  | nil => simp [lookupAll]
  | cons ls rest ih =>
    have hhead : (dictGet? env ls).isSome :=
      (mem_dictKeys_iff env ls).mp (h ls (List.mem_cons_self ls rest))
    obtain ⟨i, hi⟩ := Option.isSome_iff_exists.mp hhead
    have htail := ih (fun x hx => h x (List.mem_cons_of_mem ls hx))
    obtain ⟨is, his⟩ := Option.isSome_iff_exists.mp htail
    simp [lookupAll, hi, his]

/-- One requested label set that is not a stored key makes the lookup
comprehension raise `KeyError`. -/
theorem lookupAll_eq_none (env : EnvironmentRecord) (sets : List (List String))
    (ls : List String) (hmem : ls ∈ sets) (hnk : ls ∉ dictKeys env) :
    lookupAll env sets = none := by
  induction sets with
  | nil => cases hmem
  | cons x rest ih =>
    rcases List.mem_cons.mp hmem with hx | hx
    · subst hx
      have : dictGet? env ls = none := by
        cases hg : dictGet? env ls with
        | none => rfl
        | some i => exact absurd ((mem_dictKeys_iff env ls).mpr (by simp [hg])) hnk
      simp [lookupAll, this]
    · cases hg : dictGet? env x with
      | none => simp [lookupAll, hg]
      | some i => simp [lookupAll, hg, ih hx]

/-! ## Claim theorems: the environment record -/

/-- Claim C7: inserting an insight whose `entity_recognition` is null is a
no-op on the environment record — the store is returned unchanged (keys
and entries identical), with no error raised. -/
theorem null_tags_insert_noop (env : EnvironmentRecord) (i : Insight)
    (h : i.entity_recognition = none) :
    insertInsight env i = env ∧ dictKeys (insertInsight env i) = dictKeys env := by
  constructor
  · simp [insertInsight, h]
  · simp [insertInsight, h]

/-- Witness for C7 at a concrete store and insight. -/
theorem null_tags_insert_noop_witness :
    insertInsight seedEnv nullTagInsight = seedEnv ∧
      dictKeys (insertInsight seedEnv nullTagInsight) = dictKeys seedEnv :=
  null_tags_insert_noop seedEnv nullTagInsight rfl

/-- Counterexample to claim C2 as stated: `insightAB` and `insightBA`
carry the same tags as order-independent, deduplicated sets (each tag list
is contained in the other), yet inserting both into the empty record
leaves TWO entries, and the entry under the first key still holds the
FIRST insight — the key is the order-dependent tag tuple, not a set. -/
theorem tag_set_key_counterexample :
    (["alpha", "beta"].all (fun t => ["beta", "alpha"].contains t)
        && ["beta", "alpha"].all (fun t => ["alpha", "beta"].contains t)) = true
      ∧ insertInsight (insertInsight ([] : EnvironmentRecord) insightAB) insightBA
          = [(["alpha", "beta"], insightAB), (["beta", "alpha"], insightBA)] := by
  constructor
  · rfl
  · rfl

/-- Claim C2, amended: the environment-record key is the tag tuple in
source order, so the overwrite happens exactly when the two insights have
literally equal `entity_recognition` sequences (same order and
multiplicity).  For such a pair, inserting the first and then the second
into any record with duplicate-free keys leaves exactly one entry under
that key, and that entry is the second insight. -/
theorem same_tag_sequence_overwrites (env : EnvironmentRecord) (i1 i2 : Insight)
    (tags : List String) (hnodup : (dictKeys env).Nodup)
    (h1 : i1.entity_recognition = some tags) (h2 : i2.entity_recognition = some tags) :
    (insertInsight (insertInsight env i1) i2).filter (fun p => p.1 = tags)
      = [(tags, i2)] := by
  rw [show insertInsight env i1 = dictInsert env tags i1 by simp [insertInsight, h1]]
  rw [show insertInsight (dictInsert env tags i1) i2
        = dictInsert (dictInsert env tags i1) tags i2 by simp [insertInsight, h2]]
  exact filter_dictInsert_self (dictInsert env tags i1) tags i2
    (nodup_dictKeys_dictInsert env tags i1 hnodup)

/-- Witness for the amended C2 at concrete insights. -/
theorem same_tag_sequence_overwrites_witness :
    (insertInsight (insertInsight ([] : EnvironmentRecord) insightT1) insightT2).filter
        (fun p => p.1 = ["t"]) = [(["t"], insightT2)] :=
  same_tag_sequence_overwrites [] insightT1 insightT2 ["t"] (by simp [dictKeys_nil]) rfl rfl

/-- Claim C8: across a whole run the environment record grows
monotonically.  Every stored key survives every trace of touches, every
stored entry keeps some value under its key (overwritten, never removed),
and a retrieval touch returns the store exactly as it was. -/
theorem environment_grows_monotonically (env : EnvironmentRecord) (ops : List EnvOp) :
    (∀ k, k ∈ dictKeys env → k ∈ dictKeys (runEnvOps env ops)) ∧
      (∀ k v, dictGet? env k = some v → (dictGet? (runEnvOps env ops) k).isSome) ∧
      (∀ conditionLabels subtaskLabels retrievalIndex,
        applyEnvOp env (EnvOp.retrieveOp conditionLabels subtaskLabels retrievalIndex)
          = env) := by
  refine ⟨?_, ?_, ?_⟩
  · intro k hk
    rw [mem_dictKeys_iff] at hk ⊢
    exact isSome_dictGet?_runEnvOps ops env k hk
  · intro k v hv
    exact isSome_dictGet?_runEnvOps ops env k (by simp [hv])
  · intro cl sl ridx
    rfl

/-- Witness for C8 on a concrete seed store and trace. -/
theorem environment_grows_monotonically_witness :
    ["seed"] ∈ dictKeys (runEnvOps seedEnv demoOps) ∧
      (dictGet? (runEnvOps seedEnv demoOps) ["seed"]).isSome ∧
      applyEnvOp seedEnv (EnvOp.retrieveOp ["seed"] [] (fun _ _ => [])) = seedEnv :=
  ⟨(environment_grows_monotonically seedEnv demoOps).1 ["seed"] (by simp [seedEnv, dictKeys]),
   (environment_grows_monotonically seedEnv demoOps).2.1 ["seed"] insightT1 rfl,
   (environment_grows_monotonically seedEnv demoOps).2.2 ["seed"] [] (fun _ _ => [])⟩

/-- Claim C10: retrieval looks every label set returned by the retrieval
index up directly as a key of the environment record.  Retrieval is total
exactly under the precondition that every returned label sequence equals a
stored key list element-for-element and in order; one sequence outside the
stored keys makes the whole retrieval fail with `KeyError` instead of
returning a result. -/
theorem retrieval_lookup_exact_key (env : EnvironmentRecord)
    (conditionLabels subtaskLabels : List String)
    (retrievalIndex : List (List String) → List String → List (List String)) :
    ((∀ ls ∈ retrievalIndex (dictKeys env) (targetLabels conditionLabels subtaskLabels),
        ls ∈ dictKeys env) →
      (get_insights_from_environment env conditionLabels subtaskLabels
        retrievalIndex).isSome) ∧
    ((∃ ls ∈ retrievalIndex (dictKeys env) (targetLabels conditionLabels subtaskLabels),
        ls ∉ dictKeys env) →
      get_insights_from_environment env conditionLabels subtaskLabels
        retrievalIndex = none) ∧
    (∀ ls, (dictGet? env ls).isSome ↔ ls ∈ dictKeys env) := by
  refine ⟨?_, ?_, ?_⟩
  · intro h
    exact lookupAll_isSome env _ h
  · rintro ⟨ls, hmem, hnk⟩
    exact lookupAll_eq_none env _ ls hmem hnk
  · intro ls
    exact (mem_dictKeys_iff env ls).symm

/-- Witness for C10: the seed store with an index returning the stored key
(lookup succeeds) and with an index returning an unknown key (lookup
fails). -/
theorem retrieval_lookup_exact_key_witness :
    (get_insights_from_environment seedEnv ["x"] [] ridxGood).isSome ∧
      get_insights_from_environment seedEnv ["x"] [] ridxBad = none :=
  ⟨(retrieval_lookup_exact_key seedEnv ["x"] [] ridxGood).1 (by decide),
   (retrieval_lookup_exact_key seedEnv ["x"] [] ridxBad).2.1 ⟨["seed", "x"], by decide, by decide⟩⟩

/-! ## Dialogue-loop lemmas -/

/-- A failing step call: `n` is already incremented, the warning is
printed, and the loop continues with the same input message and
transcript. -/
theorem dialogueGo_fail_step (step : StepFn) (fuel n : Nat) (msg : String)
    (tr : List TranscriptEntry) (h : step (n + 1) msg = none) :
    dialogueGo step (fuel + 1) n msg tr = dialogueGo step fuel (n + 1) msg tr := by
  simp [dialogueGo, h]

/-- A successful, non-terminated, non-completing turn: the entry is
appended and the loop continues on the assistant's message. -/
theorem dialogueGo_continue_step (step : StepFn) (fuel n : Nat) (msg : String)
    (tr : List TranscriptEntry) (a u : ChatResponse)
    (h : step (n + 1) msg = some (a, u))
    (ha : a.terminated = false) (hu : u.terminated = false)
    (hsu : strContainsSub u.content CAMEL_TASK_DONE = false)
    (hsa : strContainsSub a.content CAMEL_TASK_DONE = false) :
    dialogueGo step (fuel + 1) n msg tr
      = dialogueGo step fuel (n + 1) a.content
          (tr ++ [{ turn := n + 1, assistant_content := a.content,
                    user_content := u.content }]) := by
  simp [dialogueGo, h, ha, hu, hsu, hsa]

/-- A successful turn with the assistant terminated: the loop stops at
once with the assistant's reason, regardless of the user's flag, with no
entry appended. -/
theorem dialogueGo_terminatedA_step (step : StepFn) (fuel n : Nat) (msg : String)
    (tr : List TranscriptEntry) (a u : ChatResponse)
    (h : step (n + 1) msg = some (a, u)) (ha : a.terminated = true) :
    dialogueGo step (fuel + 1) n msg tr
      = { outcome := .terminatedAssistant a.termination_reasons,
          transcript := tr, turns := n + 1 } := by
  simp [dialogueGo, h, ha]

/-- A successful, non-terminated turn whose user response carries the
sentinel: the entry is appended first, then the loop completes. -/
theorem dialogueGo_complete_step (step : StepFn) (fuel n : Nat) (msg : String)
    (tr : List TranscriptEntry) (a u : ChatResponse)
    (h : step (n + 1) msg = some (a, u))
    (ha : a.terminated = false) (hu : u.terminated = false)
    (hsu : strContainsSub u.content CAMEL_TASK_DONE = true) :
    dialogueGo step (fuel + 1) n msg tr
      = { outcome := .completed,
          transcript := tr ++ [{ turn := n + 1, assistant_content := a.content,
                                 user_content := u.content }],
          turns := n + 1 } := by
  simp [dialogueGo, h, ha, hu, hsu]

/-- A step function that always raises drives the loop to the turn limit:
every iteration consumes fuel and increments `n`, and the transcript stays
as it was. -/
theorem dialogueGo_all_fail (step : StepFn) (h : ∀ k m, step k m = none) :
    ∀ (fuel n : Nat) (msg : String) (tr : List TranscriptEntry),
      dialogueGo step fuel n msg tr
        = { outcome := .turnLimitReached, transcript := tr, turns := n + fuel } := by
  intro fuel
  induction fuel with
  | zero => intro n msg tr; simp [dialogueGo]
  | succ fuel ih =>
    intro n msg tr
    rw [dialogueGo_fail_step step fuel n msg tr (h (n + 1) msg), ih (n + 1) msg tr]
    have : n + 1 + fuel = n + (fuel + 1) := by omega
    rw [this]

/-- A step function that always succeeds without terminating or
completing drives the loop to the turn limit, appending one entry per
iteration. -/
theorem dialogueGo_never_stops (step : StepFn)
    (h : ∀ k m, ∃ a u, step k m = some (a, u) ∧ a.terminated = false
      ∧ u.terminated = false ∧ strContainsSub u.content CAMEL_TASK_DONE = false
      ∧ strContainsSub a.content CAMEL_TASK_DONE = false) :
    ∀ (fuel n : Nat) (msg : String) (tr : List TranscriptEntry),
      (dialogueGo step fuel n msg tr).outcome = .turnLimitReached
        ∧ (dialogueGo step fuel n msg tr).turns = n + fuel
        ∧ (dialogueGo step fuel n msg tr).transcript.length = tr.length + fuel := by
  intro fuel
  induction fuel with
  | zero => intro n msg tr; simp [dialogueGo]
  | succ fuel ih =>
    intro n msg tr
    obtain ⟨a, u, hst, ha, hu, hsu, hsa⟩ := h (n + 1) msg
    rw [dialogueGo_continue_step step fuel n msg tr a u hst ha hu hsu hsa]
    obtain ⟨h1, h2, h3⟩ := ih (n + 1) a.content
      (tr ++ [{ turn := n + 1, assistant_content := a.content, user_content := u.content }])
    refine ⟨h1, ?_, ?_⟩
    · rw [h2]; omega
    · rw [h3]; simp; omega

/-! ## Claim theorems: the dialogue loop -/

/-- Counterexample to claim C1 as stated: on a step function whose every
invocation raises, there are no successful iterations at all, yet the loop
reaches the hard cap — it runs exactly 50 failed attempts and stops in the
turn-limit state, so failed attempts do consume turn-limit slots. -/
theorem failed_attempts_hit_turn_limit :
    runDialogue alwaysFailStep "init"
      = { outcome := .turnLimitReached, transcript := [], turns := 50 } := by
  rfl

/-- Claim C1, amended: a failed step invocation is skipped without adding
a transcript entry and the loop retries with the same input message, but
the failed attempt DOES consume a turn-limit slot — `n` is incremented
before the call, so the hard cap of 50 counts every attempt, and a step
function that always fails exhausts the limit after exactly 50 failed
attempts with an empty transcript. -/
theorem failed_attempt_consumes_slot (step : StepFn) (h : ∀ k m, step k m = none)
    (init : String) :
    (∀ (fuel n : Nat) (msg : String) (tr : List TranscriptEntry),
        dialogueGo step (fuel + 1) n msg tr = dialogueGo step fuel (n + 1) msg tr) ∧
      runDialogue step init
        = { outcome := .turnLimitReached, transcript := [], turns := 50 } := by
  constructor
  · intro fuel n msg tr
    exact dialogueGo_fail_step step fuel n msg tr (h (n + 1) msg)
  · rw [runDialogue, dialogueGo_all_fail step h chat_turn_limit 0 init [], chat_turn_limit]

/-- Witness for the amended C1 at the concrete always-failing step. -/
theorem failed_attempt_consumes_slot_witness :
    dialogueGo alwaysFailStep 5 0 "m" [] = dialogueGo alwaysFailStep 4 1 "m" [] ∧
      runDialogue alwaysFailStep "init"
        = { outcome := .turnLimitReached, transcript := [], turns := 50 } :=
  ⟨(failed_attempt_consumes_slot alwaysFailStep (fun _ _ => rfl) "init").1 4 0 "m" [],
   (failed_attempt_consumes_slot alwaysFailStep (fun _ _ => rfl) "init").2⟩

/-- Claim C3: a step function that always succeeds, never sets a
termination flag and never produces the sentinel runs the loop for exactly
50 turns — the counter starts at 0, is incremented each iteration, the
loop exits at the hard limit 50 — ending in the turn-limit state with one
transcript entry per turn. -/
theorem never_stopping_runs_fifty_turns (step : StepFn) (init : String)
    (h : ∀ k m, ∃ a u, step k m = some (a, u) ∧ a.terminated = false
      ∧ u.terminated = false ∧ strContainsSub u.content CAMEL_TASK_DONE = false
      ∧ strContainsSub a.content CAMEL_TASK_DONE = false) :
    (runDialogue step init).outcome = .turnLimitReached
      ∧ (runDialogue step init).turns = 50
      ∧ (runDialogue step init).transcript.length = 50 := by
  have := dialogueGo_never_stops step h chat_turn_limit 0 init []
  simpa [runDialogue, chat_turn_limit] using this

/-- Witness for C3 at a concrete never-stopping step. -/
theorem never_stopping_runs_fifty_turns_witness :
    (runDialogue neverEndingStep "go").outcome = .turnLimitReached
      ∧ (runDialogue neverEndingStep "go").turns = 50
      ∧ (runDialogue neverEndingStep "go").transcript.length = 50 :=
  never_stopping_runs_fifty_turns neverEndingStep "go"
    (fun _ _ => ⟨plainA, plainU, rfl, rfl, rfl, rfl, rfl⟩)

/-- Claim C4: when the first two turns succeed plainly and the third
turn's user response contains `"CAMEL_TASK_DONE"`, the loop ends completed
with exactly 3 transcript entries; the sentinel is checked only after the
turn's messages are appended, so the third entry (turn index 3) is in the
transcript. -/
theorem sentinel_on_turn_three_completes (step : StepFn) (init : String)
    (h1 : ∀ m, ∃ a u, step 1 m = some (a, u) ∧ a.terminated = false
      ∧ u.terminated = false ∧ strContainsSub u.content CAMEL_TASK_DONE = false
      ∧ strContainsSub a.content CAMEL_TASK_DONE = false)
    (h2 : ∀ m, ∃ a u, step 2 m = some (a, u) ∧ a.terminated = false
      ∧ u.terminated = false ∧ strContainsSub u.content CAMEL_TASK_DONE = false
      ∧ strContainsSub a.content CAMEL_TASK_DONE = false)
    (h3 : ∀ m, ∃ a u, step 3 m = some (a, u) ∧ a.terminated = false
      ∧ u.terminated = false ∧ strContainsSub u.content CAMEL_TASK_DONE = true) :
    (runDialogue step init).outcome = .completed
      ∧ (runDialogue step init).transcript.length = 3
      ∧ ∃ ac uc, (runDialogue step init).transcript.getLast?
          = some { turn := 3, assistant_content := ac, user_content := uc } := by
  obtain ⟨a1, u1, hst1, ha1, hu1, hsu1, hsa1⟩ := h1 init
  obtain ⟨a2, u2, hst2, ha2, hu2, hsu2, hsa2⟩ := h2 a1.content
  obtain ⟨a3, u3, hst3, ha3, hu3, hsu3⟩ := h3 a2.content
  have hrun : runDialogue step init
      = { outcome := .completed,
          transcript :=
            [{ turn := 1, assistant_content := a1.content, user_content := u1.content },
             { turn := 2, assistant_content := a2.content, user_content := u2.content },
             { turn := 3, assistant_content := a3.content, user_content := u3.content }],
          turns := 3 } := by
    rw [runDialogue, chat_turn_limit]
    rw [show (50 : Nat) = 49 + 1 from rfl,
      dialogueGo_continue_step step 49 0 init [] a1 u1 hst1 ha1 hu1 hsu1 hsa1]
    rw [show (49 : Nat) = 48 + 1 from rfl,
      dialogueGo_continue_step step 48 (0 + 1) a1.content _ a2 u2 hst2 ha2 hu2 hsu2 hsa2]
    rw [show (48 : Nat) = 47 + 1 from rfl,
      dialogueGo_complete_step step 47 (0 + 1 + 1) a2.content _ a3 u3 hst3 ha3 hu3 hsu3]
    simp
  rw [hrun]
  exact ⟨rfl, rfl, a3.content, u3.content, rfl⟩

/-- Witness for C4 at a concrete step completing on turn 3. -/
theorem sentinel_on_turn_three_completes_witness :
    (runDialogue doneOnTurn3Step "go").outcome = .completed
      ∧ (runDialogue doneOnTurn3Step "go").transcript.length = 3
      ∧ ∃ ac uc, (runDialogue doneOnTurn3Step "go").transcript.getLast?
          = some { turn := 3, assistant_content := ac, user_content := uc } :=
  sentinel_on_turn_three_completes doneOnTurn3Step "go"
    (fun _ => ⟨plainA, plainU, rfl, rfl, rfl, rfl, rfl⟩)
    (fun _ => ⟨plainA, plainU, rfl, rfl, rfl, rfl, rfl⟩)
    (fun _ => ⟨plainA, doneU, rfl, rfl, rfl, rfl⟩)

/-- Claim C5: when the first invocation succeeds and the assistant
response has the terminated flag set, the loop stops at once in the
assistant-terminated state with the assistant's termination reason, an
empty transcript (0 completed turns), and the counter at 1; the
assistant's flag is checked before the user's, whatever the user's flag
is. -/
theorem assistant_termination_on_first_turn (step : StepFn) (init : String)
    (a u : ChatResponse) (hstep : step 1 init = some (a, u))
    (ha : a.terminated = true) :
    runDialogue step init
      = { outcome := .terminatedAssistant a.termination_reasons,
          transcript := [], turns := 1 } := by
  rw [runDialogue, chat_turn_limit, show (50 : Nat) = 49 + 1 from rfl]
  exact dialogueGo_terminatedA_step step 49 0 init [] a u hstep ha

/-- Witness for C5: both participants terminate at once and the
assistant's reason wins. -/
theorem assistant_termination_on_first_turn_witness :
    runDialogue bothTerminateStep "go"
      = { outcome := .terminatedAssistant "assistant gave up",
          transcript := [], turns := 1 } :=
  assistant_termination_on_first_turn bothTerminateStep "go" termA termU rfl rfl

/-! ## Claim theorem: `send_message_to_ui` -/

/-- Claim C9: a display call with a role label other than `"user"` or
`"assistant"` raises `ValueError` immediately — the error result carries
no effects, so no chat message is emitted and nothing is appended to the
log file — while the two valid labels never raise. -/
theorem invalid_role_label_rejected (role role_name message : String) :
    (¬ (role = "user" ∨ role = "assistant") →
        send_message_to_ui role role_name message
          = Except.error "The role should be one of \x27user\x27 or \x27assistant\x27.")
      ∧ ((role = "user" ∨ role = "assistant") →
        ∃ effects, send_message_to_ui role role_name message = Except.ok effects) := by
  constructor
  · intro h
    simp [send_message_to_ui, h]
  · intro h
    simp only [send_message_to_ui, if_neg (not_not_intro h)]
    exact ⟨_, rfl⟩

/-- Witness for C9: the label `"judge"` is rejected with no effects, the
label `"user"` is accepted. -/
theorem invalid_role_label_rejected_witness :
    send_message_to_ui "judge" "J" "hello"
        = Except.error "The role should be one of \x27user\x27 or \x27assistant\x27."
      ∧ ∃ effects, send_message_to_ui "user" "U" "hi" = Except.ok effects :=
  ⟨(invalid_role_label_rejected "judge" "J" "hello").1 (by decide),
   (invalid_role_label_rejected "user" "U" "hi").2 (Or.inl rfl)⟩

/-! ## Role-matcher lemmas -/

/-- The running maximum is at least its seed. -/
theorem seed_le_foldMaxVal (f : RoleScores → Rat) :
    ∀ (t : List (String × RoleScores)) (bv : Rat), bv ≤ foldMaxVal f bv t := by
  intro t
  induction t with
  | nil => intro bv; exact le_refl bv
  | cons q t ih =>
    intro bv
    exact le_trans (le_max_left bv (f q.2)) (ih (max bv (f q.2)))

/-- The running maximum dominates the value of every list element. -/
theorem mem_le_foldMaxVal (f : RoleScores → Rat) :
    ∀ (t : List (String × RoleScores)) (bv : Rat) (q : String × RoleScores),
      q ∈ t → f q.2 ≤ foldMaxVal f bv t := by
  intro t
  induction t with
  | nil => intro bv q h; cases h
  | cons p t ih =>
    intro bv q h
    rcases List.mem_cons.mp h with h | h
    · subst h
      exact le_trans (le_max_right bv (f q.2)) (seed_le_foldMaxVal f t (max bv (f q.2)))
    · exact ih (max bv (f p.2)) q h

/-- The running maximum is the seed or the value of some list element. -/
theorem foldMaxVal_attained (f : RoleScores → Rat) :
    ∀ (t : List (String × RoleScores)) (bv : Rat),
      foldMaxVal f bv t = bv ∨ ∃ q ∈ t, foldMaxVal f bv t = f q.2 := by
  intro t
  induction t with
  | nil => intro bv; left; rfl
  | cons p t ih =>
    intro bv
    rcases ih (max bv (f p.2)) with h | ⟨q, hq, hval⟩
    · rcases max_choice bv (f p.2) with hm | hm
      · left
        show foldMaxVal f (max bv (f p.2)) t = bv
        rw [h, hm]
      · right
        refine ⟨p, List.mem_cons_self p t, ?_⟩
        show foldMaxVal f (max bv (f p.2)) t = f p.2
        rw [h, hm]
    · right
      exact ⟨q, List.mem_cons_of_mem p hq, hval⟩

/-- `find?` only looks at the predicate's values on the list's elements. -/
theorem find?_pred_congr {α : Type} (p q : α → Bool) :
    ∀ l : List α, (∀ a ∈ l, p a = q a) → l.find? p = l.find? q := by
  intro l
  induction l with
  | nil => intro _; rfl
  | cons a t ih =>
    intro h
    have ha := h a (List.mem_cons_self a t)
    cases hq : q a with
    | true =>
      rw [List.find?_cons_of_pos _ (ha.trans hq), List.find?_cons_of_pos _ hq]
    | false =>
      rw [List.find?_cons_of_neg _ (by simp [ha, hq]),
        List.find?_cons_of_neg _ (by simp [hq])]
      exact ih (fun x hx => h x (List.mem_cons_of_mem a hx))

/-- The `max(..., key=f)` worker keeps the carried best on a tie and
replaces it only on a strictly greater value, so it returns the carried
best when nothing beats it, and otherwise the first element attaining the
running maximum. -/
theorem pyMaxKeyGo_eq (f : RoleScores → Rat) :
    ∀ (t : List (String × RoleScores)) (best : String) (bv : Rat),
      pyMaxKeyGo f best bv t
        = if foldMaxVal f bv t ≤ bv then best
          else ((t.find? (fun q => f q.2 = foldMaxVal f bv t)).map Prod.fst).getD best := by
  intro t
  induction t with
  | nil =>
    intro best bv
    simp [pyMaxKeyGo, foldMaxVal]
  | cons p t ih =>
    intro best bv
    by_cases hlt : bv < f p.2
    · have hmax : max bv (f p.2) = f p.2 := max_eq_right (le_of_lt hlt)
      have hM : foldMaxVal f bv (p :: t) = foldMaxVal f (f p.2) t := by
        show foldMaxVal f (max bv (f p.2)) t = _
        rw [hmax]
      have hfle : f p.2 ≤ foldMaxVal f (f p.2) t := seed_le_foldMaxVal f t (f p.2)
      have hbvM : ¬ foldMaxVal f bv (p :: t) ≤ bv := by
        rw [hM]
        intro hc
        exact absurd (le_trans hfle hc) (not_le_of_lt hlt)
      rw [show pyMaxKeyGo f best bv (p :: t) = pyMaxKeyGo f p.1 (f p.2) t by
        simp [pyMaxKeyGo, hlt]]
      rw [ih p.1 (f p.2), if_neg hbvM, hM]
      by_cases hcond : foldMaxVal f (f p.2) t ≤ f p.2
      · have hEq : f p.2 = foldMaxVal f (f p.2) t := le_antisymm hfle hcond
        have hfind : List.find? (fun q => f q.2 = foldMaxVal f (f p.2) t) (p :: t)
            = some p := by
          apply List.find?_cons_of_pos
          exact decide_eq_true hEq
        rw [if_pos hcond, hfind]
        simp
      · have hne : ¬ (f p.2 = foldMaxVal f (f p.2) t) := fun hh =>
          hcond (le_of_eq hh.symm)
        have hfind : List.find? (fun q => f q.2 = foldMaxVal f (f p.2) t) (p :: t)
            = List.find? (fun q => f q.2 = foldMaxVal f (f p.2) t) t := by
          apply List.find?_cons_of_neg
          simp [hne]
        rw [if_neg hcond, hfind]
        rcases foldMaxVal_attained f t (f p.2) with hat | ⟨q, hqmem, hqval⟩
        · exact absurd hat.symm hne
        · have hsome : (t.find? (fun q' => f q'.2 = foldMaxVal f (f p.2) t)).isSome :=
            List.find?_isSome.mpr ⟨q, hqmem, decide_eq_true hqval.symm⟩
          obtain ⟨x, hx⟩ := Option.isSome_iff_exists.mp hsome
          rw [hx]
          simp
    · have hle : f p.2 ≤ bv := le_of_not_lt hlt
      have hmax : max bv (f p.2) = bv := max_eq_left hle
      have hM : foldMaxVal f bv (p :: t) = foldMaxVal f bv t := by
        show foldMaxVal f (max bv (f p.2)) t = _
        rw [hmax]
      rw [show pyMaxKeyGo f best bv (p :: t) = pyMaxKeyGo f best bv t by
        simp [pyMaxKeyGo, hlt]]
      rw [ih best bv, hM]
      by_cases hcond : foldMaxVal f bv t ≤ bv
      · rw [if_pos hcond, if_pos hcond]
      · rw [if_neg hcond, if_neg hcond]
        have hne : ¬ (f p.2 = foldMaxVal f bv t) := by
          intro hh
          exact hcond (hh ▸ hle)
        have hfind : List.find? (fun q => f q.2 = foldMaxVal f bv t) (p :: t)
            = List.find? (fun q => f q.2 = foldMaxVal f bv t) t := by
          apply List.find?_cons_of_neg
          simp [hne]
        rw [hfind]

/-- Python's `max(scores, key=f)` selects exactly the first element in
iteration order whose value is at least every element's value. -/
theorem pyMaxKey_eq_specFirstArgmax (f : RoleScores → Rat)
    (scores : List (String × RoleScores)) :
    pyMaxKey f scores = specFirstArgmax f scores := by
  cases scores with
  | nil => rfl
  | cons p t =>
    rw [show pyMaxKey f (p :: t) = some (pyMaxKeyGo f p.1 (f p.2) t) from rfl]
    rw [pyMaxKeyGo_eq f t p.1 (f p.2)]
    set M := foldMaxVal f (f p.2) t with hMdef
    have hple : f p.2 ≤ M := seed_le_foldMaxVal f t (f p.2)
    have hcong : ∀ q ∈ p :: t,
        ((p :: t).all (fun q' => f q'.2 ≤ f q.2)) = decide (f q.2 = M) := by
      intro q hq
      have hqle : f q.2 ≤ M := by
        rcases List.mem_cons.mp hq with h | h
        · rw [h]; exact hple
        · exact mem_le_foldMaxVal f t (f p.2) q h
      by_cases hqM : f q.2 = M
      · rw [decide_eq_true hqM, List.all_eq_true]
        intro x hx
        rw [decide_eq_true_eq, hqM]
        rcases List.mem_cons.mp hx with h | h
        · rw [h]; exact hple
        · exact mem_le_foldMaxVal f t (f p.2) x h
      · rw [decide_eq_false hqM, Bool.eq_false_iff]
        intro hall
        have hattain : ∃ q' ∈ p :: t, f q'.2 = M := by
          rcases foldMaxVal_attained f t (f p.2) with h | ⟨q', hq', hval⟩
          · exact ⟨p, List.mem_cons_self p t, h.symm⟩
          · exact ⟨q', List.mem_cons_of_mem p hq', hval.symm⟩
        obtain ⟨q', hq', hq'M⟩ := hattain
        have hle' := (List.all_eq_true.mp hall) q' hq'
        rw [decide_eq_true_eq] at hle'
        exact hqM (le_antisymm hqle (hq'M ▸ hle'))
    rw [specFirstArgmax, find?_pred_congr _ _ (p :: t) hcong]
    by_cases hMp : M ≤ f p.2
    · have hpM : f p.2 = M := le_antisymm hple hMp
      have hfind : List.find? (fun q => f q.2 = M) (p :: t) = some p := by
        apply List.find?_cons_of_pos
        exact decide_eq_true hpM
      rw [if_pos hMp, hfind]
      simp
    · have hpne : ¬ (f p.2 = M) := fun hh => hMp (le_of_eq hh.symm)
      have hfind : List.find? (fun q => f q.2 = M) (p :: t)
          = List.find? (fun q => f q.2 = M) t := by
        apply List.find?_cons_of_neg
        simp [hpne]
      rw [if_neg hMp, hfind]
      rcases foldMaxVal_attained f t (f p.2) with h | ⟨q', hq', hval⟩
      · exact absurd h.symm hpne
      · have hsome : (t.find? (fun q => f q.2 = M)).isSome :=
          List.find?_isSome.mpr ⟨q', hq', decide_eq_true hval.symm⟩
        obtain ⟨x, hx⟩ := Option.isSome_iff_exists.mp hsome
        rw [hx]
        simp

/-! ## Claim theorem: the role matcher -/

/-- Claim C6: on every non-empty compatibility score map the matcher
selects the assistant role as the argmax of `score_assistant` and the user
role as the argmax of `score_user`; equal top scores are broken in favour
of the first role in the map's iteration order (the selection equals the
spec-side first-argmax, a pure function of the map, hence deterministic
across repeated runs); both selections succeed, and nothing forbids them
from being the same role. -/
theorem role_matcher_first_argmax (scores : List (String × RoleScores))
    (h : scores ≠ []) :
    ai_assistant_role scores = specFirstArgmax (fun s => s.score_assistant) scores
      ∧ ai_user_role scores = specFirstArgmax (fun s => s.score_user) scores
      ∧ (ai_assistant_role scores).isSome ∧ (ai_user_role scores).isSome := by
  obtain ⟨p, t, rfl⟩ := List.exists_cons_of_ne_nil h
  refine ⟨pyMaxKey_eq_specFirstArgmax _ _, pyMaxKey_eq_specFirstArgmax _ _, ?_, ?_⟩
  · rw [show ai_assistant_role (p :: t)
        = some (pyMaxKeyGo (fun s => s.score_assistant) p.1 p.2.score_assistant t)
        from rfl]
    rfl
  · rw [show ai_user_role (p :: t)
        = some (pyMaxKeyGo (fun s => s.score_user) p.1 p.2.score_user t)
        from rfl]
    rfl

/-- Witness for C6 on a concrete score map with an assistant-score tie:
the first role in iteration order wins the tie and the same role is
selected for both positions without error. -/
theorem role_matcher_first_argmax_witness :
    (ai_assistant_role demoScores
          = specFirstArgmax (fun s => s.score_assistant) demoScores
        ∧ ai_user_role demoScores = specFirstArgmax (fun s => s.score_user) demoScores
        ∧ (ai_assistant_role demoScores).isSome ∧ (ai_user_role demoScores).isSome)
      ∧ ai_assistant_role demoScores = some "alice"
      ∧ ai_user_role demoScores = some "alice" :=
  ⟨role_matcher_first_argmax demoScores (by simp [demoScores]),
   by norm_num [ai_assistant_role, demoScores, pyMaxKey, pyMaxKeyGo],
   by norm_num [ai_user_role, demoScores, pyMaxKey, pyMaxKeyGo]⟩

end MultiAgentUI
